import Mathlib

/-!
# Verification of the audio-to-org-notes transcription utility

A shallow embedding of the Go program `go-audio2org` (file `main.go`) and
proofs of the specification's claims about it.

The embedding follows the source:

* Path manipulation (`path/filepath.Ext`, `Clean`, `Join`, `Dir`, `Base`,
  `strings.TrimSuffix`) is translated byte-for-byte from the Go standard
  library's Unix implementations, operating on `List Char`.
* The effectful pipeline (`main`, `processTranscription`, `transcribeAudio`,
  `createOutputDir`, `writeToFile`, `readExistingTranscription`,
  `createEmacsOrgNotes`) is modelled as pure functions from an explicit
  `World` oracle (environment, filesystem and HTTP responses) to a trace of
  observable events plus an outcome; `log.Fatalf` sites become `Abort.fatal`
  with the source's message, and a Go runtime panic (out-of-range index)
  becomes `Abort.panicked`.
-/

namespace Audio2Org

/-! ## Go `path/filepath` model (Unix rules) -/

/-- The maximal prefix of non-separator characters together with the rest,
mirroring the inner copy loop of Go's `filepath.Clean`. -/
def spanNonSep : List Char → List Char × List Char
  | [] => ([], [])
  | c :: cs =>
    if c = '/' then ([], c :: cs)
    else
      let p := spanNonSep cs
      (c :: p.1, p.2)

theorem spanNonSep_snd_length_le : ∀ l : List Char, (spanNonSep l).2.length ≤ l.length := by
  intro l
  induction l with
  | nil => simp [spanNonSep]
  | cons c cs ih =>
    by_cases h : c = '/'
    · simp [spanNonSep, h]
    · simp only [spanNonSep, if_neg h]
      exact Nat.le_succ_of_le ih

/-- The backtracking loop of Go `filepath.Clean`'s `..` case: having just
removed the buffer character `c`, keep removing while the buffer (stored in
reverse) is longer than `dotdot` and the removed character is not a
separator. -/
def dropLoop (dotdot : Nat) : Char → List Char → List Char
  | _, [] => []
  | c, c' :: l' =>
    if l'.length + 1 > dotdot ∧ c ≠ '/' then dropLoop dotdot c' l' else c' :: l'

/-- Go `filepath.Clean`'s `out.w--; for out.w > dotdot && ...` sequence on a
reversed output buffer. -/
def dropElemRev (dotdot : Nat) : List Char → List Char
  | [] => []
  | c :: rest => dropLoop dotdot c rest

/-- The main loop of Go `filepath.Clean` (Unix separators).  The output
buffer `out` is kept in reverse order; `dotdot` is the index bounding
backtracking over `..` elements, exactly as in the Go source. -/
def cleanLoop (rooted : Bool) (remaining out : List Char) (dotdot : Nat) : List Char :=
  match remaining with
  | [] => out
  | c :: rest =>
    if c = '/' then
      -- empty path element
      cleanLoop rooted rest out dotdot
    else if c = '.' ∧ (rest = [] ∨ rest.head? = some '/') then
      -- "." element
      cleanLoop rooted rest out dotdot
    else if c = '.' ∧ rest.head? = some '.' ∧ (rest.tail = [] ∨ rest.tail.head? = some '/') then
      -- ".." element
      if dotdot < out.length then
        cleanLoop rooted rest.tail (dropElemRev dotdot out) dotdot
      else if rooted = false then
        if out.length ≠ 0 then
          cleanLoop rooted rest.tail ('.' :: '.' :: '/' :: out) (out.length + 3)
        else
          cleanLoop rooted rest.tail ['.', '.'] 2
      else
        cleanLoop rooted rest.tail out dotdot
    else
      -- real path element: add slash if needed, then copy the element
      let out₀ := if (rooted = true ∧ out.length ≠ 1) ∨ (rooted = false ∧ out.length ≠ 0)
        then '/' :: out else out
      let p := spanNonSep rest
      cleanLoop rooted p.2 (p.1.reverse ++ c :: out₀) dotdot
termination_by remaining.length
decreasing_by
  all_goals simp only [List.length_cons]
  all_goals
    first
      | omega
      | exact Nat.lt_succ_of_le (spanNonSep_snd_length_le _)
      | (rw [List.length_tail]; omega)

/-- Go `filepath.Clean` on Unix, on character lists. -/
def goCleanList (path : List Char) : List Char :=
  match path with
  | [] => ['.']
  | c :: _ =>
    if c = '/' then
      let r := cleanLoop true path ['/'] 1
      if r = [] then ['.'] else r.reverse
    else
      let r := cleanLoop false path [] 0
      if r = [] then ['.'] else r.reverse

/-- Go `filepath.Clean` on strings. -/
def goClean (s : String) : String := ⟨goCleanList s.data⟩

/-- Go `filepath.Join` restricted to two elements: skip leading empty
elements, join with `/`, then `Clean` — exactly Go's behaviour. -/
def goJoin (a b : String) : String :=
  if a ≠ "" then goClean (a ++ "/" ++ b)
  else if b ≠ "" then goClean b
  else ""

/-- Scanning loop of Go `filepath.Ext`: the input is the reversed path, and
`seen` holds (in string order) the characters already passed.  Returns the
extension (including the dot), or `[]` if a separator is reached first. -/
def goExtAux (seen : List Char) : List Char → List Char
  | [] => []
  | c :: rest =>
    if c = '/' then []
    else if c = '.' then c :: seen
    else goExtAux (c :: seen) rest

/-- Go `filepath.Ext`: the suffix beginning at the final dot in the final
slash-separated element, or empty. -/
def goExt (s : String) : String := ⟨goExtAux [] s.data.reverse⟩

/-- Go `filepath.Dir`: drop the final element, then `Clean`. -/
def goDir (s : String) : String :=
  goClean ⟨(s.data.reverse.dropWhile (fun c => c ≠ '/')).reverse⟩

/-- Go `filepath.Base`: strip trailing separators, then keep everything
after the final separator. -/
def goBase (s : String) : String :=
  if s = "" then "."
  else
    let t := s.data.reverse.dropWhile (fun c => c = '/')
    let b := (t.takeWhile (fun c => c ≠ '/')).reverse
    if b = [] then "/" else ⟨b⟩

/-- Go `strings.TrimSuffix`. -/
def goTrimSuffix (s suffix : String) : String :=
  if suffix.data.isSuffixOf s.data then ⟨s.data.take (s.data.length - suffix.data.length)⟩
  else s

/-! ## Time instants and Go `time.Format` for the layout `20060102_150405` -/

/-- A wall-clock instant as the fields Go's formatting of the layout
`20060102_150405` consumes. -/
structure GoTime where
  year : Nat
  month : Nat
  day : Nat
  hour : Nat
  minute : Nat
  second : Nat
  deriving DecidableEq

/-- The decimal digit character of `n % 10`. -/
def digitChar (n : Nat) : Char :=
  match n % 10 with
  | 0 => '0' | 1 => '1' | 2 => '2' | 3 => '3' | 4 => '4'
  | 5 => '5' | 6 => '6' | 7 => '7' | 8 => '8' | _ => '9'

/-- Two-digit zero-padded decimal rendering (tens digit, units digit). -/
def pad2 (n : Nat) : List Char := [digitChar (n / 10), digitChar n]

/-- Four-digit zero-padded decimal rendering. -/
def pad4 (n : Nat) : List Char :=
  [digitChar (n / 1000), digitChar (n / 100), digitChar (n / 10), digitChar n]

/-- Modelled from the spec: Go's `time.Time.Format` with the source's layout
string `"20060102_150405"` (the `time` package is outside this repository).
The spec fixes the rendering as `YYYYMMDD_HHMMSS`: four-digit year, then
two-digit month, day, an underscore, and two-digit hour, minute, second,
each zero-padded (all real wall-clock instants fit these widths). -/
def goTimeFormat (t : GoTime) : String :=
  ⟨pad4 t.year ++ pad2 t.month ++ pad2 t.day ++
    '_' :: (pad2 t.hour ++ pad2 t.minute ++ pad2 t.second)⟩

/-! ## Output-path generation (`generateTimestampedFilePath`,
`generateOrgFilePath`) -/

/-- The stem `baseFileName[:len(baseFileName)-len(ext)]` computed by
`generateTimestampedFilePath`. -/
def goStem (s : String) : String :=
  ⟨s.data.take (s.data.length - (goExt s).data.length)⟩

/-- `generateTimestampedFilePath` from `main.go`: the invocation instant
(`time.Now()` there) is passed explicitly. -/
def generateTimestampedFilePath (outputDir baseFileName : String) (now : GoTime) : String :=
  let timestamp := goTimeFormat now
  let ext := goExt baseFileName
  let name := goStem baseFileName
  goJoin outputDir (name ++ "_" ++ timestamp ++ ext)

/-- A Go string slice `s[:k]` with `k : Int` as in Go: out-of-range bounds
panic, modelled as `none`. -/
def goSliceTo (s : String) (k : Int) : Option String :=
  if 0 ≤ k ∧ k ≤ (s.data.length : Int) then some ⟨s.data.take k.toNat⟩ else none

/-- `generateTimestampedFilePath` with the slice
`baseFileName[:len(baseFileName)-len(ext)]` kept as the partial Go
operation, to show the index is always in range. -/
def generateTimestampedFilePathChecked (outputDir baseFileName : String)
    (now : GoTime) : Option String :=
  let timestamp := goTimeFormat now
  let ext := goExt baseFileName
  match goSliceTo baseFileName ((baseFileName.data.length : Int) - (ext.data.length : Int)) with
  | none => none
  | some name => some (goJoin outputDir (name ++ "_" ++ timestamp ++ ext))

/-- `generateOrgFilePath` from `main.go`. -/
def generateOrgFilePath (baseFilePath : String) : String :=
  let dir := goDir baseFilePath
  let baseName := goTrimSuffix (goBase baseFilePath) (goExt baseFilePath)
  let orgFileName := baseName ++ "_emacs_org_notes.org"
  goJoin dir orgFileName

/-! ## Prompt construction (`createPrompt`) -/

/-- Go `fmt.Sprintf` restricted to a format string whose only verb is one
`%s`: the first `%s` is replaced by the argument, the rest is copied. -/
def sprintfS (format : List Char) (arg : String) : List Char :=
  match format with
  | [] => []
  | c :: rest =>
    if c = '%' ∧ rest.head? = some 's' then arg.data ++ rest.tail
    else c :: sprintfS rest arg

/-- The raw-string format literal of `createPrompt` in `main.go`. -/
def promptTemplate : String :=
  "I need you to summarize the following content and convert it into an Emacs Org file format.\nPlease do not include any extra commentary or explanations.\nMake sure the summary is detailed but concise, capturing the key points and providing enough explanation for each section. Avoid being too brief or overly terse.\n\nThe response should only contain the Emacs Org formatted output.\n\nUse the following structure:\n\n1. The file should have a #+title: and #+author: and #+date: header using today\x27s date in the format like \"<1999-10-04 Fri>\"\n2. Include a \"Summary\" section that gives a brief overview of the key points, try\n3. Include a \"Notes\" section, with **subsections** that organize the content logically.\n\nHere is the content to summarize:\n\n%s\n\nPlease format the response as a valid Emacs Org file."

/-- `createPrompt` from `main.go`. -/
def createPrompt (transcriptionText : String) : String :=
  ⟨sprintfS promptTemplate.data transcriptionText⟩

/-- The fixed template text preceding the transcription in the prompt. -/
def promptPrefix : String :=
  "I need you to summarize the following content and convert it into an Emacs Org file format.\nPlease do not include any extra commentary or explanations.\nMake sure the summary is detailed but concise, capturing the key points and providing enough explanation for each section. Avoid being too brief or overly terse.\n\nThe response should only contain the Emacs Org formatted output.\n\nUse the following structure:\n\n1. The file should have a #+title: and #+author: and #+date: header using today\x27s date in the format like \"<1999-10-04 Fri>\"\n2. Include a \"Summary\" section that gives a brief overview of the key points, try\n3. Include a \"Notes\" section, with **subsections** that organize the content logically.\n\nHere is the content to summarize:\n\n"

/-- The fixed template text following the transcription in the prompt. -/
def promptSuffix : String :=
  "\n\nPlease format the response as a valid Emacs Org file."

/-! ## The effectful pipeline

`main`, `processTranscription`, `transcribeAudio`, `createOutputDir`,
`writeToFile`, `readExistingTranscription` and `createEmacsOrgNotes` are
modelled as pure functions of a `World` oracle, returning the trace of
observable operations together with the result.  A `log.Fatalf` site
becomes `Abort.fatal` carrying the source's message; the out-of-range
index `aiResponse.Choices[0]` on an empty list becomes `Abort.panicked`. -/

/-- The `Config` struct of `main.go`. -/
structure Config where
  audioFilePath : String
  transcriptionFilePath : String
  outputFileName : String
  postProcessCmd : String
  openAIAPIKey : String
  deriving DecidableEq

/-- The `TranscriptionResponse` struct: the decoded Whisper reply. -/
structure TranscriptionResponse where
  text : String
  deriving DecidableEq

/-- The message part of one choice of the chat-completion reply. -/
structure ChoiceMessage where
  content : String
  deriving DecidableEq

/-- One element of the `choices` list of the chat-completion reply. -/
structure Choice where
  message : ChoiceMessage
  deriving DecidableEq

/-- The `OpenAIResponse` struct: the decoded chat-completion reply. -/
structure OpenAIResponse where
  choices : List Choice
  deriving DecidableEq

/-- How the process ends a failing run: a logged `log.Fatalf` exit, or a
runtime panic. -/
inductive Abort where
  | fatal (msg : String)
  | panicked
  deriving DecidableEq

/-- The result of one outbound HTTP call: transport error, non-success
status, or a success body given by its JSON-decoding result. -/
inductive HTTPResult (α : Type) where
  | netErr (msg : String)
  | errStatus (body : String)
  | ok (decoded : Except String α)

/-- Observable operations of a run. -/
inductive Event where
  | dotenvLoad
  | readFile (path : String)
  | whisperRequest
  | statOutputDir
  | mkdirOutput
  | writeFile (path content : String)
  | completionRequest (prompt : String)
  deriving DecidableEq

/-- The ambient environment and I/O behaviour a run observes; `getenv` is
the environment visible after `godotenv.Load` has run. -/
structure World where
  getenv : String → String
  readFile : String → Except String String
  outputDirExists : Bool
  mkdirResult : Except String Unit
  writeResult : String → String → Except String Unit
  whisper : HTTPResult TranscriptionResponse
  completion : HTTPResult OpenAIResponse
  now : GoTime

/-- `getEnv` from `main.go`: fatal when the variable is empty/unset. -/
def getEnvModel (w : World) (key : String) : Except Abort String :=
  let value := w.getenv key
  if value = "" then .error (.fatal (key ++ " not set in environment")) else .ok value

/-- `transcribeAudio` from `main.go` (the audio bytes and file name do not
influence the modelled behaviour). -/
def transcribeAudio (w : World) : List Event × Except Abort String :=
  ([.whisperRequest],
    match w.whisper with
    | .netErr _ => .error (.fatal "Error sending request to Whisper API")
    | .errStatus _ => .error (.fatal "Error response from Whisper API")
    | .ok (.error _) => .error (.fatal "Error unmarshalling JSON response")
    | .ok (.ok transcriptionResp) => .ok transcriptionResp.text)

/-- `createOutputDir` from `main.go`. -/
def createOutputDir (w : World) : List Event × Except Abort String :=
  if w.outputDirExists then ([.statOutputDir], .ok "output")
  else
    match w.mkdirResult with
    | .error _ => ([.statOutputDir, .mkdirOutput], .error (.fatal "Error creating output directory"))
    | .ok _ => ([.statOutputDir, .mkdirOutput], .ok "output")

/-- `writeToFile` from `main.go`. -/
def writeToFile (w : World) (filePath content : String) : List Event × Except Abort Unit :=
  ([.writeFile filePath content],
    match w.writeResult filePath content with
    | .error _ => .error (.fatal "Error writing to file")
    | .ok _ => .ok ())

/-- `readExistingTranscription` from `main.go`. -/
def readExistingTranscription (w : World) (filePath : String) :
    List Event × Except Abort String :=
  ([.readFile filePath],
    match w.readFile filePath with
    | .error _ => .error (.fatal "Error reading transcription file")
    | .ok s => .ok s)

/-- `processTranscription` from `main.go`: returns the transcription text
and the reference output path. -/
def processTranscription (w : World) (config : Config) :
    List Event × Except Abort (String × String) :=
  if config.audioFilePath ≠ "" then
    match w.readFile config.audioFilePath with
    | .error _ =>
      ([.readFile config.audioFilePath], .error (.fatal "Error reading audio file"))
    | .ok _audioBytes =>
      let tr := transcribeAudio w
      match tr.2 with
      | .error a => (.readFile config.audioFilePath :: tr.1, .error a)
      | .ok transcriptionText =>
        let od := createOutputDir w
        match od.2 with
        | .error a => (.readFile config.audioFilePath :: (tr.1 ++ od.1), .error a)
        | .ok outputDir =>
          let outputFileName :=
            if config.outputFileName = "" then "transcription.txt" else config.outputFileName
          let outputFilePath := generateTimestampedFilePath outputDir outputFileName w.now
          let wr := writeToFile w outputFilePath transcriptionText
          (.readFile config.audioFilePath :: (tr.1 ++ od.1 ++ wr.1),
            match wr.2 with
            | .error a => .error a
            | .ok _ => .ok (transcriptionText, outputFilePath))
  else if config.transcriptionFilePath ≠ "" then
    let rd := readExistingTranscription w config.transcriptionFilePath
    (rd.1,
      match rd.2 with
      | .error a => .error a
      | .ok transcriptionText => .ok (transcriptionText, config.transcriptionFilePath))
  else ([], .ok ("", ""))

/-- `createEmacsOrgNotes` from `main.go`.  On a decoded response with an
empty `choices` list the source's `aiResponse.Choices[0]` is out of range:
the model aborts with `Abort.panicked`. -/
def createEmacsOrgNotes (w : World) (transcriptionText _apiKey baseFilePath : String) :
    List Event × Except Abort Unit :=
  let prompt := createPrompt transcriptionText
  match w.completion with
  | .netErr _ =>
    ([.completionRequest prompt], .error (.fatal "Error sending request to OpenAI API"))
  | .errStatus _ =>
    ([.completionRequest prompt], .error (.fatal "Error response from OpenAI API"))
  | .ok (.error _) =>
    ([.completionRequest prompt], .error (.fatal "Error unmarshalling OpenAI response"))
  | .ok (.ok aiResponse) =>
    match aiResponse.choices with
    | [] => ([.completionRequest prompt], .error .panicked)
    | choice0 :: _ =>
      let outputFilePath := generateOrgFilePath baseFilePath
      let wr := writeToFile w outputFilePath choice0.message.content
      (.completionRequest prompt :: wr.1, wr.2)

/-- The final outcome of a run. -/
inductive Outcome where
  | ok
  | aborted (a : Abort)
  deriving DecidableEq

/-- `main` from `main.go`: flags are already parsed into `flags` (with the
`OpenAIAPIKey` field not yet set, as after `parseFlags`). -/
def main (flags : Config) (w : World) : List Event × Outcome :=
  let pre : List Event := [.dotenvLoad]
  match getEnvModel w "OPENAI_API_KEY" with
  | .error a => (pre, .aborted a)
  | .ok key =>
    let config := { flags with openAIAPIKey := key }
    if config.audioFilePath = "" ∧ config.transcriptionFilePath = "" then
      (pre, .aborted (.fatal "The -file or -transcription argument is required."))
    else
      let pt := processTranscription w config
      match pt.2 with
      | .error a => (pre ++ pt.1, .aborted a)
      | .ok res =>
        if config.postProcessCmd = "create_emacs_org_notes" then
          let cn := createEmacsOrgNotes w res.1 config.openAIAPIKey res.2
          (pre ++ pt.1 ++ cn.1,
            match cn.2 with
            | .error a => .aborted a
            | .ok _ => .ok)
        else (pre ++ pt.1, .ok)

/-! ## String and path lemmas -/

theorem stringDataEq {a b : String} (h : a.data = b.data) : a = b := by
  cases a
  cases b
  exact congrArg String.mk h

theorem stringMkData (s : String) : (⟨s.data⟩ : String) = s := by
  cases s
  rfl

theorem goExtAux_nil_or_decomp (rest : List Char) :
    ∀ seen, goExtAux seen rest = [] ∨
      ∃ p, rest.reverse ++ seen = p ++ goExtAux seen rest := by
  induction rest with
  | nil => intro seen; left; rfl
  | cons c rest ih =>
    intro seen
    by_cases h1 : c = '/'
    · left; simp [goExtAux, h1]
    · by_cases h2 : c = '.'
      · right
        refine ⟨rest.reverse, ?_⟩
        simp [goExtAux, h1, h2]
      · rcases ih (c :: seen) with h | ⟨p, hp⟩
        · left; simpa [goExtAux, h1, h2] using h
        · right
          refine ⟨p, ?_⟩
          have hrw : (c :: rest).reverse ++ seen = rest.reverse ++ (c :: seen) := by simp
          rw [hrw, hp]
          simp [goExtAux, h1, h2]

theorem goExt_data_decomp (s : String) :
    (goExt s).data = [] ∨ ∃ p, s.data = p ++ (goExt s).data := by
  rcases goExtAux_nil_or_decomp s.data.reverse [] with h | ⟨p, hp⟩
  · left; simpa [goExt] using h
  · right
    refine ⟨p, ?_⟩
    have hs : s.data.reverse.reverse ++ ([] : List Char) = s.data := by simp
    rw [← hs, hp]
    rfl

theorem goExt_length_le (s : String) : (goExt s).data.length ≤ s.data.length := by
  rcases goExt_data_decomp s with h | ⟨p, hp⟩
  · simp [h]
  · rw [hp]; simp

theorem goExt_mem_of_mem (s : String) {c : Char} (h : c ∈ (goExt s).data) :
    c ∈ s.data := by
  rcases goExt_data_decomp s with h0 | ⟨p, hp⟩
  · rw [h0] at h; cases h
  · rw [hp]; exact List.mem_append_right _ h

theorem goExtAux_of_no_dot (rest : List Char) :
    ∀ seen, '.' ∉ rest → goExtAux seen rest = [] := by
  induction rest with
  | nil => intro seen _; rfl
  | cons c rest ih =>
    intro seen h
    have hc : c ≠ '.' := fun hc => h (by simp [hc])
    by_cases h1 : c = '/'
    · simp [goExtAux, h1]
    · rw [goExtAux, if_neg h1, if_neg hc]
      exact ih _ (fun hm => h (List.mem_cons_of_mem _ hm))

theorem goExt_of_no_dot (s : String) (h : '.' ∉ s.data) : (goExt s).data = [] :=
  goExtAux_of_no_dot s.data.reverse [] (by simpa using h)

theorem goStem_append_goExt (s : String) : goStem s ++ goExt s = s := by
  apply stringDataEq
  rw [String.data_append]
  show s.data.take (s.data.length - (goExt s).data.length) ++ (goExt s).data = s.data
  rcases goExt_data_decomp s with h | ⟨p, hp⟩
  · simp [h]
  · rw [hp]
    have hlen : (p ++ (goExt s).data).length - (goExt s).data.length = p.length := by
      simp
    rw [hlen, List.take_left]

theorem goStem_mem_of_mem (s : String) {c : Char} (h : c ∈ (goStem s).data) :
    c ∈ s.data := by
  have : (goStem s).data = s.data.take (s.data.length - (goExt s).data.length) := rfl
  rw [this] at h
  exact List.mem_of_mem_take h

theorem spanNonSep_append (l rest : List Char) (hl : '/' ∉ l)
    (hrest : rest = [] ∨ rest.head? = some '/') :
    spanNonSep (l ++ rest) = (l, rest) := by
  induction l with
  | nil =>
    rcases hrest with h | h
    · simp [h, spanNonSep]
    · cases rest with
      | nil => simp [spanNonSep]
      | cons c r =>
        simp only [List.head?_cons, Option.some.injEq] at h
        simp [spanNonSep, h]
  | cons c l ih =>
    have hc : c ≠ '/' := fun h => hl (by simp [h])
    have hl' : '/' ∉ l := fun h => hl (List.mem_cons_of_mem _ h)
    simp [spanNonSep, hc, ih hl']

theorem cleanLoop_nil (rooted : Bool) (out : List Char) (dotdot : Nat) :
    cleanLoop rooted [] out dotdot = out := by
  rw [cleanLoop]

theorem cleanLoop_sep (rooted : Bool) (rest out : List Char) (dotdot : Nat) :
    cleanLoop rooted ('/' :: rest) out dotdot = cleanLoop rooted rest out dotdot := by
  rw [cleanLoop]; simp

/-- Walking one non-degenerate, separator-free element through the `Clean`
loop (unrooted): the element is copied, preceded by a slash when the buffer
is non-empty. -/
theorem cleanLoop_elem (g rest out : List Char) (dotdot : Nat)
    (hg : g ≠ []) (hg2 : '/' ∉ g) (hg3 : g ≠ ['.']) (hg4 : g ≠ ['.', '.'])
    (hrest : rest = [] ∨ rest.head? = some '/') :
    cleanLoop false (g ++ rest) out dotdot =
      cleanLoop false rest
        (g.reverse ++ (if out.length ≠ 0 then '/' :: out else out)) dotdot := by
  obtain ⟨c, g', rfl⟩ : ∃ c g', g = c :: g' := by
    cases g with
    | nil => exact absurd rfl hg
    | cons c g' => exact ⟨c, g', rfl⟩
  have hc : c ≠ '/' := fun h => hg2 (by simp [h])
  have hg2' : '/' ∉ g' := fun h => hg2 (List.mem_cons_of_mem _ h)
  have hcond2 : ¬(c = '.' ∧ (g' ++ rest = [] ∨ (g' ++ rest).head? = some '/')) := by
    rintro ⟨rfl, hor⟩
    cases g' with
    | nil =>
      exact hg3 (by rfl)
    | cons d g'' =>
      rcases hor with h | h
      · simp at h
      · simp only [List.cons_append, List.head?_cons, Option.some.injEq] at h
        exact hg2' (by simp [h])
  have hcond3 : ¬(c = '.' ∧ (g' ++ rest).head? = some '.' ∧
      ((g' ++ rest).tail = [] ∨ ((g' ++ rest).tail).head? = some '/')) := by
    rintro ⟨rfl, hhead, htail⟩
    cases g' with
    | nil =>
      rcases hrest with h | h
      · simp [h] at hhead
      · simp only [List.nil_append] at hhead
        rw [h] at hhead
        simp at hhead
    | cons d g'' =>
      simp only [List.cons_append, List.head?_cons, Option.some.injEq] at hhead
      subst hhead
      cases g'' with
      | nil =>
        exact hg4 (by rfl)
      | cons e g''' =>
        simp only [List.cons_append, List.tail_cons] at htail
        rcases htail with h | h
        · simp at h
        · simp only [List.cons_append, List.head?_cons, Option.some.injEq] at h
          exact hg2' (by simp [h])
  have hstep : (c :: g') ++ rest = c :: (g' ++ rest) := rfl
  rw [hstep, cleanLoop, if_neg hc, if_neg hcond2, if_neg hcond3]
  have hguard : ((false = true ∧ out.length ≠ 1) ∨ (false = false ∧ out.length ≠ 0))
      ↔ out.length ≠ 0 := by simp
  rw [spanNonSep_append g' rest hg2' hrest]
  by_cases hout : out.length ≠ 0
  · rw [if_pos (hguard.mpr hout), if_pos hout]
    show cleanLoop false rest (g'.reverse ++ c :: '/' :: out) dotdot =
      cleanLoop false rest ((c :: g').reverse ++ '/' :: out) dotdot
    have hb : g'.reverse ++ c :: '/' :: out = (c :: g').reverse ++ '/' :: out := by simp
    rw [hb]
  · rw [if_neg (fun h => hout (hguard.mp h)), if_neg hout]
    show cleanLoop false rest (g'.reverse ++ c :: out) dotdot =
      cleanLoop false rest ((c :: g').reverse ++ out) dotdot
    have hb : g'.reverse ++ c :: out = (c :: g').reverse ++ out := by simp
    rw [hb]

/-- `Clean` on `d/f` for separator-free, non-degenerate `d` and `f` is the
identity. -/
theorem goCleanList_pair (d f : List Char)
    (hd : d ≠ []) (hd2 : '/' ∉ d) (hd3 : d ≠ ['.']) (hd4 : d ≠ ['.', '.'])
    (hf : f ≠ []) (hf2 : '/' ∉ f) (hf3 : f ≠ ['.']) (hf4 : f ≠ ['.', '.']) :
    goCleanList (d ++ '/' :: f) = d ++ '/' :: f := by
  obtain ⟨c, d', rfl⟩ : ∃ c d', d = c :: d' := by
    cases d with
    | nil => exact absurd rfl hd
    | cons c d' => exact ⟨c, d', rfl⟩
  have hc : c ≠ '/' := fun h => hd2 (by simp [h])
  have h1 : cleanLoop false ((c :: d') ++ '/' :: f) [] 0 =
      cleanLoop false ('/' :: f) ((c :: d').reverse ++ []) 0 := by
    have := cleanLoop_elem (c :: d') ('/' :: f) [] 0 hd hd2 hd3 hd4 (Or.inr (by simp))
    simpa using this
  have h2 : cleanLoop false ('/' :: f) ((c :: d').reverse ++ []) 0 =
      cleanLoop false f ((c :: d').reverse) 0 := by
    rw [cleanLoop_sep]
    simp
  have h3 : cleanLoop false f ((c :: d').reverse) 0 =
      f.reverse ++ '/' :: (c :: d').reverse := by
    have hout : ((c :: d').reverse).length ≠ 0 := by simp
    have := cleanLoop_elem f [] ((c :: d').reverse) 0 hf hf2 hf3 hf4 (Or.inl rfl)
    rw [List.append_nil] at this
    rw [this, if_pos hout, cleanLoop_nil]
  show goCleanList (c :: (d' ++ '/' :: f)) = (c :: d') ++ '/' :: f
  rw [goCleanList, if_neg hc]
  have hr : cleanLoop false (c :: (d' ++ '/' :: f)) [] 0 =
      f.reverse ++ '/' :: (c :: d').reverse := by
    have hstep : c :: (d' ++ '/' :: f) = (c :: d') ++ '/' :: f := rfl
    rw [hstep, h1, h2, h3]
  rw [hr]
  have hne : f.reverse ++ '/' :: (c :: d').reverse ≠ [] := by simp
  rw [if_neg hne]
  simp

/-- `Clean` on `d/` for separator-free, non-degenerate `d` strips the
trailing separator. -/
theorem goCleanList_trailing_slash (d : List Char)
    (hd : d ≠ []) (hd2 : '/' ∉ d) (hd3 : d ≠ ['.']) (hd4 : d ≠ ['.', '.']) :
    goCleanList (d ++ ['/']) = d := by
  obtain ⟨c, d', rfl⟩ : ∃ c d', d = c :: d' := by
    cases d with
    | nil => exact absurd rfl hd
    | cons c d' => exact ⟨c, d', rfl⟩
  have hc : c ≠ '/' := fun h => hd2 (by simp [h])
  have h1 : cleanLoop false ((c :: d') ++ ['/']) [] 0 =
      cleanLoop false ['/'] ((c :: d').reverse ++ []) 0 := by
    have := cleanLoop_elem (c :: d') ['/'] [] 0 hd hd2 hd3 hd4 (Or.inr (by simp))
    simpa using this
  show goCleanList (c :: (d' ++ ['/'])) = c :: d'
  rw [goCleanList, if_neg hc]
  have hr : cleanLoop false (c :: (d' ++ ['/'])) [] 0 = (c :: d').reverse := by
    have hstep : c :: (d' ++ ['/']) = (c :: d') ++ ['/'] := rfl
    rw [hstep, h1, List.append_nil, cleanLoop_sep, cleanLoop_nil]
  rw [hr]
  have hne : (c :: d').reverse ≠ [] := by simp
  rw [if_neg hne]
  simp

theorem dataNeNilOfNe {a : String} (h : a ≠ "") : a.data ≠ [] :=
  fun hd => h (stringDataEq (by rw [hd]))

theorem dataNeDotOfNe {a : String} (h : a ≠ ".") : a.data ≠ ['.'] :=
  fun hd => h (stringDataEq (by rw [hd]))

theorem dataNeDotDotOfNe {a : String} (h : a ≠ "..") : a.data ≠ ['.', '.'] :=
  fun hd => h (stringDataEq (by rw [hd]))

/-- String-level form of `goCleanList_pair`. -/
theorem goClean_pair (d f : String)
    (hd : d ≠ "") (hd2 : '/' ∉ d.data) (hd3 : d ≠ ".") (hd4 : d ≠ "..")
    (hf : f ≠ "") (hf2 : '/' ∉ f.data) (hf3 : f ≠ ".") (hf4 : f ≠ "..") :
    goClean (d ++ "/" ++ f) = d ++ "/" ++ f := by
  apply stringDataEq
  have hdata : (d ++ "/" ++ f).data = d.data ++ '/' :: f.data := by
    simp [String.data_append]
  show goCleanList (d ++ "/" ++ f).data = (d ++ "/" ++ f).data
  rw [hdata]
  exact goCleanList_pair d.data f.data (dataNeNilOfNe hd) hd2 (dataNeDotOfNe hd3)
    (dataNeDotDotOfNe hd4) (dataNeNilOfNe hf) hf2 (dataNeDotOfNe hf3) (dataNeDotDotOfNe hf4)

theorem goJoin_pair (d f : String)
    (hd : d ≠ "") (hd2 : '/' ∉ d.data) (hd3 : d ≠ ".") (hd4 : d ≠ "..")
    (hf : f ≠ "") (hf2 : '/' ∉ f.data) (hf3 : f ≠ ".") (hf4 : f ≠ "..") :
    goJoin d f = d ++ "/" ++ f := by
  rw [goJoin, if_pos hd]
  exact goClean_pair d f hd hd2 hd3 hd4 hf hf2 hf3 hf4

theorem dropWhileNeSep_append (l rest : List Char) (hl : '/' ∉ l) :
    (l ++ '/' :: rest).dropWhile (fun c => c ≠ '/') = '/' :: rest := by
  induction l with
  | nil => simp [List.dropWhile_cons]
  | cons c l ih =>
    have hc : c ≠ '/' := fun h => hl (by simp [h])
    have hl' : '/' ∉ l := fun h => hl (List.mem_cons_of_mem _ h)
    simp only [List.cons_append, List.dropWhile_cons]
    rw [if_pos (by simp [hc])]
    exact ih hl'

theorem takeWhileNeSep_append (l rest : List Char) (hl : '/' ∉ l) :
    (l ++ '/' :: rest).takeWhile (fun c => c ≠ '/') = l := by
  induction l with
  | nil => simp [List.takeWhile_cons]
  | cons c l ih =>
    have hc : c ≠ '/' := fun h => hl (by simp [h])
    have hl' : '/' ∉ l := fun h => hl (List.mem_cons_of_mem _ h)
    simp only [List.cons_append, List.takeWhile_cons]
    rw [if_pos (by simp [hc])]
    rw [ih hl']

theorem dropWhileSep_of_head_ne (l : List Char) (h : l.head? ≠ some '/') :
    l.dropWhile (fun c => c = '/') = l := by
  cases l with
  | nil => rfl
  | cons c l' =>
    have hc : c ≠ '/' := fun hc => h (by simp [hc])
    simp [List.dropWhile_cons, hc]

/-! ## Digit and timestamp lemmas -/

theorem digitChar_mem_digits (n : Nat) :
    digitChar n ∈ ['0', '1', '2', '3', '4', '5', '6', '7', '8', '9'] := by
  unfold digitChar
  split <;> simp

theorem digitChar_ne_slash (n : Nat) : digitChar n ≠ '/' := by
  have h := digitChar_mem_digits n
  intro he
  rw [he] at h
  simp at h

theorem slash_not_mem_pad2 (n : Nat) : '/' ∉ pad2 n := by
  intro h
  rcases (by simpa [pad2] using h : '/' = digitChar (n / 10) ∨ '/' = digitChar n) with h1 | h1
  · exact digitChar_ne_slash _ h1.symm
  · exact digitChar_ne_slash _ h1.symm

theorem slash_not_mem_pad4 (n : Nat) : '/' ∉ pad4 n := by
  intro h
  rcases (by simpa [pad4] using h :
      '/' = digitChar (n / 1000) ∨ '/' = digitChar (n / 100) ∨
      '/' = digitChar (n / 10) ∨ '/' = digitChar n) with h1 | h1 | h1 | h1 <;>
    exact digitChar_ne_slash _ h1.symm

theorem goTimeFormat_no_slash (t : GoTime) : '/' ∉ (goTimeFormat t).data := by
  intro h
  have hmem : '/' ∈ pad4 t.year ++ (pad2 t.month ++ (pad2 t.day ++
      '_' :: (pad2 t.hour ++ (pad2 t.minute ++ pad2 t.second)))) := by
    simpa [goTimeFormat] using h
  simp only [List.mem_append, List.mem_cons] at hmem
  rcases hmem with h1 | h1 | h1 | h1 | h1 | h1 | h1
  · exact slash_not_mem_pad4 _ h1
  · exact slash_not_mem_pad2 _ h1
  · exact slash_not_mem_pad2 _ h1
  · simp at h1
  · exact slash_not_mem_pad2 _ h1
  · exact slash_not_mem_pad2 _ h1
  · exact slash_not_mem_pad2 _ h1

theorem goTimeFormat_length (t : GoTime) : (goTimeFormat t).data.length = 15 := by
  simp [goTimeFormat, pad4, pad2]


/-! ## Timestamped output path: C3 and C8 -/

theorem ne_empty_of_data_len {f : String} (h : 16 ≤ f.data.length) : f ≠ "" := by
  intro he
  rw [he] at h
  exact absurd h (by decide)

theorem ne_dot_of_data_len {f : String} (h : 16 ≤ f.data.length) : f ≠ "." := by
  intro he
  rw [he] at h
  exact absurd h (by decide)

theorem ne_dotdot_of_data_len {f : String} (h : 16 ≤ f.data.length) : f ≠ ".." := by
  intro he
  rw [he] at h
  exact absurd h (by decide)

/-- Claim C3: for a separator-free output directory and base file name, the
generated transcription path is the directory, a slash, the extension-
stripped stem, an underscore, the `YYYYMMDD_HHMMSS` rendering of the
instant, and the original extension; stem and extension partition the base
name.  Determinism in the instant is inherent: the model is a pure function
of `(outputDir, baseFileName, now)`. -/
theorem generateTimestampedFilePath_spec (dir base : String) (t : GoTime)
    (h1 : dir ≠ "") (h2 : '/' ∉ dir.data) (h3 : dir ≠ ".") (h4 : dir ≠ "..")
    (h5 : '/' ∉ base.data) :
    generateTimestampedFilePath dir base t
      = dir ++ "/" ++ (goStem base ++ "_" ++ goTimeFormat t ++ goExt base)
    ∧ goStem base ++ goExt base = base := by
  refine ⟨?_, goStem_append_goExt base⟩
  show goJoin dir (goStem base ++ "_" ++ goTimeFormat t ++ goExt base) = _
  have hfdata : (goStem base ++ "_" ++ goTimeFormat t ++ goExt base).data
      = (((goStem base).data ++ ['_']) ++ (goTimeFormat t).data) ++ (goExt base).data := by
    simp [String.data_append]
  have hlen : 16 ≤ (goStem base ++ "_" ++ goTimeFormat t ++ goExt base).data.length := by
    rw [hfdata]
    simp only [List.length_append, List.length_cons, List.length_nil, goTimeFormat_length]
    omega
  have hfslash : '/' ∉ (goStem base ++ "_" ++ goTimeFormat t ++ goExt base).data := by
    rw [hfdata]
    intro hmem
    simp only [List.mem_append, List.mem_cons, List.not_mem_nil, or_false] at hmem
    rcases hmem with ((hm | hm) | hm) | hm
    · exact h5 (goStem_mem_of_mem base hm)
    · exact absurd hm (by decide)
    · exact goTimeFormat_no_slash t hm
    · exact h5 (goExt_mem_of_mem base hm)
  exact goJoin_pair dir _ h1 h2 h3 h4 (ne_empty_of_data_len hlen) hfslash
    (ne_dot_of_data_len hlen) (ne_dotdot_of_data_len hlen)

/-- Claim C8: the slice `baseFileName[:len(baseFileName)-len(ext)]` is
always in range (the checked model never panics), and for a dot-free base
name the timestamp is appended at the end, with no extension following. -/
theorem generateTimestampedFilePath_total (dir base : String) (t : GoTime) :
    generateTimestampedFilePathChecked dir base t
      = some (generateTimestampedFilePath dir base t)
    ∧ ('.' ∉ base.data →
        generateTimestampedFilePath dir base t = goJoin dir (base ++ "_" ++ goTimeFormat t)) := by
  constructor
  · have hle := goExt_length_le base
    have hcond : (0 : Int) ≤ (base.data.length : Int) - ((goExt base).data.length : Int) ∧
        (base.data.length : Int) - ((goExt base).data.length : Int) ≤ (base.data.length : Int) := by
      constructor <;> omega
    have htn : ((base.data.length : Int) - ((goExt base).data.length : Int)).toNat
        = base.data.length - (goExt base).data.length := Int.toNat_sub _ _
    simp only [generateTimestampedFilePathChecked, goSliceTo, if_pos hcond, htn]
    rfl
  · intro hdot
    have hext : (goExt base).data = [] := goExt_of_no_dot base hdot
    have hstem : goStem base = base := by
      show (⟨base.data.take (base.data.length - (goExt base).data.length)⟩ : String) = base
      rw [hext]
      simp only [List.length_nil, Nat.sub_zero, List.take_length]
    have hextS : goExt base = "" := stringDataEq (by rw [hext])
    show goJoin dir (goStem base ++ "_" ++ goTimeFormat t ++ goExt base) = _
    rw [hstem, hextS, String.append_empty]

/-! ## Derived notes path: C4 -/

theorem goExtAux_skip (l : List Char) :
    ∀ seen rest, '/' ∉ l → '.' ∉ l →
      goExtAux seen (l ++ rest) = goExtAux (l.reverse ++ seen) rest := by
  induction l with
  | nil =>
    intro seen rest _ _
    simp
  | cons c l ih =>
    intro seen rest h1 h2
    have hc1 : c ≠ '/' := fun h => h1 (by simp [h])
    have hc2 : c ≠ '.' := fun h => h2 (by simp [h])
    rw [List.cons_append, goExtAux, if_neg hc1, if_neg hc2,
      ih (c :: seen) rest (fun h => h1 (List.mem_cons_of_mem _ h))
        (fun h => h2 (List.mem_cons_of_mem _ h))]
    congr 1
    simp

theorem head_append_cons_ne (l X : List Char) (d : Char) (hl : '/' ∉ l) (hd : d ≠ '/') :
    (l ++ d :: X).head? ≠ some '/' := by
  cases l with
  | nil => simp [hd]
  | cons c l' =>
    have hc : c ≠ '/' := fun h => hl (by simp [h])
    simp [hc]

/-- Claim C4: for a reference path `a/b.e` with a separator-free,
non-degenerate directory `a`, a dot- and separator-free base name `b` and a
dot- and separator-free extension `e`, the derived notes path is
`a/b_emacs_org_notes.org`. -/
theorem generateOrgFilePath_spec (a b e : String)
    (ha : a ≠ "") (ha2 : '/' ∉ a.data) (ha3 : a ≠ ".") (ha4 : a ≠ "..")
    (hb2 : '/' ∉ b.data)
    (he2 : '/' ∉ e.data) (he3 : '.' ∉ e.data) :
    generateOrgFilePath (a ++ "/" ++ b ++ "." ++ e)
      = a ++ "/" ++ b ++ "_emacs_org_notes.org" := by
  have hsdata : (a ++ "/" ++ b ++ "." ++ e).data
      = a.data ++ '/' :: (b.data ++ '.' :: e.data) := by
    simp [String.data_append]
  have hrev : (a ++ "/" ++ b ++ "." ++ e).data.reverse
      = e.data.reverse ++ '.' :: (b.data.reverse ++ '/' :: a.data.reverse) := by
    rw [hsdata]
    simp
  have heslash : '/' ∉ e.data.reverse := by simpa using he2
  have hedot : '.' ∉ e.data.reverse := by simpa using he3
  have hext : (goExt (a ++ "/" ++ b ++ "." ++ e)).data = '.' :: e.data := by
    show goExtAux [] (a ++ "/" ++ b ++ "." ++ e).data.reverse = '.' :: e.data
    rw [hrev, goExtAux_skip e.data.reverse [] _ heslash hedot, goExtAux]
    simp
  have hextS : goExt (a ++ "/" ++ b ++ "." ++ e) = ⟨'.' :: e.data⟩ := stringDataEq hext
  have hprefix_noslash : '/' ∉ e.data.reverse ++ '.' :: b.data.reverse := by
    intro h
    rcases List.mem_append.mp h with h | h
    · exact heslash h
    · rcases List.mem_cons.mp h with h | h
      · exact absurd h (by decide)
      · exact hb2 (by simpa using h)
  have hsne : (a ++ "/" ++ b ++ "." ++ e) ≠ "" := by
    intro h
    have hd := congrArg String.data h
    rw [hsdata] at hd
    simp at hd
  have hdrop : (a ++ "/" ++ b ++ "." ++ e).data.reverse.dropWhile (fun c => c = '/')
      = e.data.reverse ++ '.' :: (b.data.reverse ++ '/' :: a.data.reverse) := by
    rw [hrev]
    exact dropWhileSep_of_head_ne _ (head_append_cons_ne _ _ _ heslash (by decide))
  have htake : (e.data.reverse ++ '.' :: (b.data.reverse ++ '/' :: a.data.reverse)).takeWhile
        (fun c => c ≠ '/')
      = e.data.reverse ++ '.' :: b.data.reverse := by
    have hassoc : e.data.reverse ++ '.' :: (b.data.reverse ++ '/' :: a.data.reverse)
        = (e.data.reverse ++ '.' :: b.data.reverse) ++ '/' :: a.data.reverse := by simp
    rw [hassoc]
    exact takeWhileNeSep_append _ _ hprefix_noslash
  have hbase : goBase (a ++ "/" ++ b ++ "." ++ e) = ⟨b.data ++ '.' :: e.data⟩ := by
    rw [goBase, if_neg hsne]
    show (if ((((a ++ "/" ++ b ++ "." ++ e).data.reverse.dropWhile (fun c => c = '/')).takeWhile
            (fun c => c ≠ '/')).reverse = [])
        then "/"
        else (⟨(((a ++ "/" ++ b ++ "." ++ e).data.reverse.dropWhile (fun c => c = '/')).takeWhile
            (fun c => c ≠ '/')).reverse⟩ : String))
      = (⟨b.data ++ '.' :: e.data⟩ : String)
    rw [hdrop, htake]
    have hne : (e.data.reverse ++ '.' :: b.data.reverse).reverse ≠ [] := by simp
    rw [if_neg hne]
    congr 1
    simp
  have hdir : goDir (a ++ "/" ++ b ++ "." ++ e) = a := by
    rw [goDir]
    have hdrop2 : (a ++ "/" ++ b ++ "." ++ e).data.reverse.dropWhile (fun c => c ≠ '/')
        = '/' :: a.data.reverse := by
      rw [hrev]
      have hassoc : e.data.reverse ++ '.' :: (b.data.reverse ++ '/' :: a.data.reverse)
          = (e.data.reverse ++ '.' :: b.data.reverse) ++ '/' :: a.data.reverse := by simp
      rw [hassoc]
      exact dropWhileNeSep_append _ _ hprefix_noslash
    rw [hdrop2]
    have hrevrev : ('/' :: a.data.reverse).reverse = a.data ++ ['/'] := by simp
    rw [hrevrev]
    apply stringDataEq
    show goCleanList (a.data ++ ['/']) = a.data
    exact goCleanList_trailing_slash a.data (dataNeNilOfNe ha) ha2 (dataNeDotOfNe ha3)
      (dataNeDotDotOfNe ha4)
  have htrim : goTrimSuffix (⟨b.data ++ '.' :: e.data⟩ : String) (⟨'.' :: e.data⟩ : String) = b := by
    rw [goTrimSuffix]
    have hsuf : ('.' :: e.data).isSuffixOf (b.data ++ '.' :: e.data) = true := by
      rw [List.isSuffixOf_iff_suffix]
      exact List.suffix_append _ _
    rw [if_pos hsuf]
    apply stringDataEq
    show (b.data ++ '.' :: e.data).take ((b.data ++ '.' :: e.data).length - ('.' :: e.data).length)
      = b.data
    have hl : (b.data ++ '.' :: e.data).length - ('.' :: e.data).length = b.data.length := by
      simp
    rw [hl]
    exact List.take_left b.data ('.' :: e.data)
  have hofdata : (b ++ "_emacs_org_notes.org").data = b.data ++ "_emacs_org_notes.org".data :=
    String.data_append b "_emacs_org_notes.org"
  have hoflen : 16 ≤ (b ++ "_emacs_org_notes.org").data.length := by
    rw [hofdata]
    have : "_emacs_org_notes.org".data.length = 20 := by decide
    simp [this]
  have hofslash : '/' ∉ (b ++ "_emacs_org_notes.org").data := by
    rw [hofdata]
    intro h
    rcases List.mem_append.mp h with h | h
    · exact hb2 h
    · exact absurd h (by decide)
  show goJoin (goDir (a ++ "/" ++ b ++ "." ++ e))
      (goTrimSuffix (goBase (a ++ "/" ++ b ++ "." ++ e)) (goExt (a ++ "/" ++ b ++ "." ++ e))
        ++ "_emacs_org_notes.org")
    = a ++ "/" ++ b ++ "_emacs_org_notes.org"
  rw [hdir, hbase, hextS, htrim,
    goJoin_pair a _ ha ha2 ha3 ha4 (ne_empty_of_data_len hoflen) hofslash
      (ne_dot_of_data_len hoflen) (ne_dotdot_of_data_len hoflen),
    ← String.append_assoc]

/-! ## Prompt construction: C10 -/

theorem sprintfS_subst (p : List Char) (rest : List Char) (arg : String) (hp : '%' ∉ p) :
    sprintfS (p ++ '%' :: 's' :: rest) arg = p ++ arg.data ++ rest := by
  induction p with
  | nil => simp [sprintfS]
  | cons c p ih =>
    have hc : c ≠ '%' := fun h => hp (by simp [h])
    rw [List.cons_append, sprintfS, if_neg (fun hh => hc hh.1),
      ih (fun h => hp (List.mem_cons_of_mem _ h))]
    simp

set_option maxRecDepth 4096 in
/-- Claim C10: the summarization prompt is the transcription text embedded
verbatim between two fixed template pieces, so equal transcriptions give
equal prompts. -/
theorem createPrompt_spec (t : String) :
    createPrompt t = promptPrefix ++ t ++ promptSuffix := by
  apply stringDataEq
  have htempl : promptTemplate.data = promptPrefix.data ++ '%' :: 's' :: promptSuffix.data := by
    decide
  show sprintfS promptTemplate.data t = (promptPrefix ++ t ++ promptSuffix).data
  rw [htempl, sprintfS_subst promptPrefix.data _ _ (by decide)]
  simp [String.data_append]

/-! ## Empty choices list: C1 -/

/-- The claim's "handled decoding error" outcome: the stage ends in a
logged `log.Fatalf` exit (not a panic). -/
def isHandledFatal : Except Abort Unit → Bool
  | .error (.fatal _) => true
  | _ => false

/-- A world whose completion endpoint returns a decodable body with an
empty choices list. -/
def wEmptyChoices : World where
  getenv := fun _ => "key"
  readFile := fun _ => .ok "meeting notes"
  outputDirExists := true
  mkdirResult := .ok ()
  writeResult := fun _ _ => .ok ()
  whisper := .netErr "unused"
  completion := .ok (.ok ⟨[]⟩)
  now := ⟨2024, 1, 2, 3, 4, 5⟩

/-- Counterexample to claim C1: on a successfully decoded completion
response whose choices list is empty, the post-processing stage does not
end in a handled, logged fatal error — it panics on the unguarded index
`Choices[0]`. -/
theorem emptyChoices_not_handled_counterexample :
    isHandledFatal (createEmacsOrgNotes wEmptyChoices "meeting notes" "key" "t.txt").2 = false
    ∧ (createEmacsOrgNotes wEmptyChoices "meeting notes" "key" "t.txt").2
        = Except.error Abort.panicked := by
  constructor
  · rfl
  · rfl

/-- Amended claim C1: a decoded completion response with an empty choices
list makes the post-processing stage abort by runtime panic (the unguarded
index `aiResponse.Choices[0]`), not by a handled, logged decoding error. -/
theorem emptyChoices_panics (w : World) (t k p : String) (r : OpenAIResponse)
    (hc : w.completion = .ok (.ok r)) (he : r.choices = []) :
    (createEmacsOrgNotes w t k p).2 = Except.error Abort.panicked := by
  simp only [createEmacsOrgNotes, hc, he]

theorem emptyChoices_panics_witness :
    (createEmacsOrgNotes wEmptyChoices "x" "k" "t.txt").2 = Except.error Abort.panicked :=
  emptyChoices_panics wEmptyChoices "x" "k" "t.txt" ⟨[]⟩ rfl rfl

/-! ## Missing credential: C7 -/

/-- Claim C7: with the credential absent from the (post-load) environment,
the run aborts at the credential check; the trace holds only the
configuration-stage environment-file load, and in particular no data-file
read or write, no directory stat or creation, and no network request. -/
theorem missing_credential_aborts_early (cfg : Config) (w : World)
    (h : w.getenv "OPENAI_API_KEY" = "") :
    main cfg w = ([Event.dotenvLoad],
        Outcome.aborted (Abort.fatal "OPENAI_API_KEY not set in environment"))
    ∧ (∀ p, Event.readFile p ∉ (main cfg w).1)
    ∧ (∀ p c, Event.writeFile p c ∉ (main cfg w).1)
    ∧ Event.whisperRequest ∉ (main cfg w).1
    ∧ (∀ p, Event.completionRequest p ∉ (main cfg w).1)
    ∧ Event.statOutputDir ∉ (main cfg w).1
    ∧ Event.mkdirOutput ∉ (main cfg w).1 := by
  have hmain : main cfg w = ([Event.dotenvLoad],
      Outcome.aborted (Abort.fatal "OPENAI_API_KEY not set in environment")) := by
    simp [main, getEnvModel, h]
  refine ⟨hmain, ?_, ?_, ?_, ?_, ?_, ?_⟩ <;> simp [hmain]

/-! ## Existing-transcription branch: C9 -/

theorem processTranscription_trans_branch (w : World) (cfg : Config)
    (h1 : cfg.audioFilePath = "") (h2 : cfg.transcriptionFilePath ≠ "") :
    processTranscription w cfg = ([Event.readFile cfg.transcriptionFilePath],
      match w.readFile cfg.transcriptionFilePath with
      | .error _ => .error (.fatal "Error reading transcription file")
      | .ok t => .ok (t, cfg.transcriptionFilePath)) := by
  rw [processTranscription, if_neg (fun hh => hh h1), if_pos h2]
  cases hr : w.readFile cfg.transcriptionFilePath <;> simp [readExistingTranscription, hr]

/-- Claim C9: on the existing-transcription branch the `-output` flag value
has no effect on the run, the returned reference path is the supplied
transcription path, and no output directory stat/creation and no file
write occur. -/
theorem transcription_branch_ignores_output (cfg : Config) (w : World)
    (ha : cfg.audioFilePath = "") (ht : cfg.transcriptionFilePath ≠ "") :
    (∀ o, processTranscription w { cfg with outputFileName := o } = processTranscription w cfg)
    ∧ (processTranscription w cfg).1 = [Event.readFile cfg.transcriptionFilePath]
    ∧ (∀ t, w.readFile cfg.transcriptionFilePath = .ok t →
        (processTranscription w cfg).2 = .ok (t, cfg.transcriptionFilePath))
    ∧ Event.mkdirOutput ∉ (processTranscription w cfg).1
    ∧ Event.statOutputDir ∉ (processTranscription w cfg).1
    ∧ (∀ p c, Event.writeFile p c ∉ (processTranscription w cfg).1) := by
  have hcfg := processTranscription_trans_branch w cfg ha ht
  refine ⟨?_, ?_, ?_, ?_, ?_, ?_⟩
  · intro o
    rw [processTranscription_trans_branch w { cfg with outputFileName := o } ha ht, hcfg]
  · rw [hcfg]
  · intro t hr
    rw [hcfg]
    simp [hr]
  · rw [hcfg]
    simp
  · rw [hcfg]
    simp
  · intro p c
    rw [hcfg]
    simp

/-! ## Post-processing gate: C5 -/

theorem processTranscription_no_completion (w : World) (config : Config) (p : String) :
    Event.completionRequest p ∉ (processTranscription w config).1 := by
  simp only [processTranscription, transcribeAudio, createOutputDir, writeToFile,
    readExistingTranscription]
  repeat' split
  all_goals simp

/-- Claim C5: when the post-process directive is anything other than
`create_emacs_org_notes`, no completion request is issued and the run's
trace is exactly the environment-file load followed by the transcription
stage's trace — the program exits after that stage. -/
theorem main_post_noop (cfg : Config) (w : World)
    (h : cfg.postProcessCmd ≠ "create_emacs_org_notes") :
    (∀ p, Event.completionRequest p ∉ (main cfg w).1)
    ∧ ((main cfg w).1 = [Event.dotenvLoad]
       ∨ (main cfg w).1 = Event.dotenvLoad ::
           (processTranscription w { cfg with openAIAPIKey := w.getenv "OPENAI_API_KEY" }).1) := by
  by_cases hkey : w.getenv "OPENAI_API_KEY" = ""
  · have hmain : (main cfg w).1 = [Event.dotenvLoad] := by
      simp [main, getEnvModel, hkey]
    rw [hmain]
    exact ⟨fun p => by simp, Or.inl rfl⟩
  · have hkey2 : getEnvModel w "OPENAI_API_KEY" = .ok (w.getenv "OPENAI_API_KEY") := by
      simp [getEnvModel, hkey]
    by_cases hboth : cfg.audioFilePath = "" ∧ cfg.transcriptionFilePath = ""
    · have hmain : (main cfg w).1 = [Event.dotenvLoad] := by
        simp only [main, hkey2]
        rw [if_pos hboth]
      rw [hmain]
      exact ⟨fun p => by simp, Or.inl rfl⟩
    · have hmain : (main cfg w).1 = Event.dotenvLoad ::
          (processTranscription w { cfg with openAIAPIKey := w.getenv "OPENAI_API_KEY" }).1 := by
        simp only [main, hkey2]
        rw [if_neg hboth]
        cases hpt : (processTranscription w { cfg with openAIAPIKey := w.getenv "OPENAI_API_KEY" }).2 with
        | error a => simp [hpt]
        | ok res => simp [h]
      rw [hmain]
      refine ⟨fun p => ?_, Or.inr rfl⟩
      intro hmem
      rcases List.mem_cons.mp hmem with hmem | hmem
      · exact absurd hmem (by simp)
      · exact processTranscription_no_completion w _ p hmem

/-! ## Verbatim transcription write: C6 -/

/-- Claim C6: on the audio branch with a successful, well-formed Whisper
reply, the transcription output write carries exactly the decoded `text`
field, and every write of the stage carries that text — nothing is
transformed between decoding and writing. -/
theorem transcription_written_verbatim (cfg : Config) (w : World)
    (tr : TranscriptionResponse) (bytes : String)
    (ha : cfg.audioFilePath ≠ "")
    (hr : w.readFile cfg.audioFilePath = .ok bytes)
    (hw : w.whisper = .ok (.ok tr))
    (hd : w.outputDirExists = true ∨ w.mkdirResult = .ok ()) :
    Event.writeFile
        (generateTimestampedFilePath "output"
          (if cfg.outputFileName = "" then "transcription.txt" else cfg.outputFileName) w.now)
        tr.text
      ∈ (processTranscription w cfg).1
    ∧ (∀ path content, Event.writeFile path content ∈ (processTranscription w cfg).1 →
        content = tr.text) := by
  by_cases hex : w.outputDirExists
  · constructor
    · simp [processTranscription, ha, hr, transcribeAudio, hw, createOutputDir, writeToFile, hex]
    · intro path content hmem
      simp [processTranscription, ha, hr, transcribeAudio, hw, createOutputDir, writeToFile,
        hex] at hmem
      exact hmem.2
  · have hmk : w.mkdirResult = .ok () := by
      rcases hd with hd | hd
      · exact absurd hd hex
      · exact hd
    constructor
    · simp [processTranscription, ha, hr, transcribeAudio, hw, createOutputDir, writeToFile,
        hex, hmk]
    · intro path content hmem
      simp [processTranscription, ha, hr, transcribeAudio, hw, createOutputDir, writeToFile,
        hex, hmk] at hmem
      exact hmem.2

/-! ## Usage check: C2 -/

/-- A configuration with both input paths set. -/
def cfgBoth : Config := ⟨"a.mp3", "t.txt", "", "", ""⟩

/-- A world for the both-paths run: the credential is present and the audio
file is unreadable, so the run stops inside the transcription stage. -/
def wBoth : World where
  getenv := fun _ => "key"
  readFile := fun _ => .error "no such file"
  outputDirExists := false
  mkdirResult := .ok ()
  writeResult := fun _ _ => .ok ()
  whisper := .netErr "down"
  completion := .netErr "down"
  now := ⟨2024, 1, 2, 3, 4, 5⟩

/-- Counterexample to claim C2: with both paths set the run does not stop
with the usage error — the transcription stage starts and reads the audio
file. -/
theorem main_both_set_counterexample :
    (main cfgBoth wBoth).2
        ≠ Outcome.aborted (Abort.fatal "The -file or -transcription argument is required.")
    ∧ Event.readFile "a.mp3" ∈ (main cfgBoth wBoth).1 := by
  constructor
  · decide
  · decide

theorem processTranscription_fatal_msgs (w : World) (config : Config) (m : String)
    (h : (processTranscription w config).2 = .error (.fatal m)) :
    m ∈ ["Error reading audio file", "Error sending request to Whisper API",
      "Error response from Whisper API", "Error unmarshalling JSON response",
      "Error creating output directory", "Error writing to file",
      "Error reading transcription file"] := by
  simp only [processTranscription, transcribeAudio, createOutputDir, writeToFile,
    readExistingTranscription] at h
  repeat' split at h
  all_goals
    first
      | (simp_all; done)
      | (rename_i heq
         revert heq
         split <;> (intro heq; simp_all))

theorem createEmacsOrgNotes_fatal_msgs (w : World) (t k p m : String)
    (h : (createEmacsOrgNotes w t k p).2 = .error (.fatal m)) :
    m ∈ ["Error sending request to OpenAI API", "Error response from OpenAI API",
      "Error unmarshalling OpenAI response", "Error writing to file"] := by
  simp only [createEmacsOrgNotes, writeToFile] at h
  repeat' split at h
  all_goals simp_all

theorem processTranscription_audio_reads (w : World) (config : Config)
    (ha : config.audioFilePath ≠ "") :
    Event.readFile config.audioFilePath ∈ (processTranscription w config).1 := by
  simp only [processTranscription, if_pos ha]
  cases w.readFile config.audioFilePath with
  | error e => simp
  | ok bytes =>
    cases (transcribeAudio w).2 with
    | error a => simp
    | ok text =>
      cases (createOutputDir w).2 with
      | error a => simp
      | ok d => simp

/-- Amended claim C2: of the configurations the original claim ranges over
(not exactly one path set), the both-empty half behaves as claimed — the
program terminates with the usage error before the transcription stage —
while in the both-set half no usage error is raised: the audio branch runs
(the audio file is read, audio path taking precedence). -/
theorem main_usage_check (cfg : Config) (w : World)
    (hkey : w.getenv "OPENAI_API_KEY" ≠ "") :
    (cfg.audioFilePath = "" ∧ cfg.transcriptionFilePath = "" →
      main cfg w = ([Event.dotenvLoad],
        Outcome.aborted (Abort.fatal "The -file or -transcription argument is required.")))
    ∧ (cfg.audioFilePath ≠ "" ∧ cfg.transcriptionFilePath ≠ "" →
        (main cfg w).2
            ≠ Outcome.aborted (Abort.fatal "The -file or -transcription argument is required.")
        ∧ Event.readFile cfg.audioFilePath ∈ (main cfg w).1) := by
  have hkey2 : getEnvModel w "OPENAI_API_KEY" = .ok (w.getenv "OPENAI_API_KEY") := by
    simp [getEnvModel, hkey]
  constructor
  · intro hboth
    simp only [main, hkey2]
    rw [if_pos hboth]
  · rintro ⟨ha, -⟩
    have hmem := processTranscription_audio_reads w
      { cfg with openAIAPIKey := w.getenv "OPENAI_API_KEY" } ha
    constructor
    · intro hcontra
      simp only [main, hkey2] at hcontra
      rw [if_neg (fun hh => ha hh.1)] at hcontra
      repeat' split at hcontra
      all_goals simp_all
      · exact absurd (processTranscription_fatal_msgs _ _ _ (by assumption)) (by decide)
      · exact absurd (createEmacsOrgNotes_fatal_msgs _ _ _ _ _ (by assumption)) (by decide)
    · simp only [main, hkey2]
      rw [if_neg (fun hh => ha hh.1)]
      split
      · simp [hmem]
      · split <;> simp [hmem]

theorem main_usage_check_witness :
    (cfgBoth.audioFilePath = "" ∧ cfgBoth.transcriptionFilePath = "" →
      main cfgBoth wBoth = ([Event.dotenvLoad],
        Outcome.aborted (Abort.fatal "The -file or -transcription argument is required.")))
    ∧ (cfgBoth.audioFilePath ≠ "" ∧ cfgBoth.transcriptionFilePath ≠ "" →
        (main cfgBoth wBoth).2
            ≠ Outcome.aborted (Abort.fatal "The -file or -transcription argument is required.")
        ∧ Event.readFile cfgBoth.audioFilePath ∈ (main cfgBoth wBoth).1) :=
  main_usage_check cfgBoth wBoth (by decide)

/-! ## Shared demo runs and remaining witnesses -/

/-- A fully successful demo world. -/
def wDemo : World where
  getenv := fun _ => "key"
  readFile := fun _ => .ok "meeting notes"
  outputDirExists := true
  mkdirResult := .ok ()
  writeResult := fun _ _ => .ok ()
  whisper := .ok (.ok ⟨"hello world"⟩)
  completion := .ok (.ok ⟨[⟨⟨"#+title: Test"⟩⟩]⟩)
  now := ⟨2024, 1, 2, 3, 4, 5⟩

/-- The demo world with the credential removed from the environment. -/
def wNoKey : World := { wDemo with getenv := fun _ => "" }

/-- A flags configuration selecting the audio branch. -/
def cfgAudio : Config := ⟨"talk.mp3", "", "", "", ""⟩

/-- A flags configuration selecting the existing-transcription branch with
an unrecognized post directive and an output name. -/
def cfgTransNoPost : Config := ⟨"", "t.txt", "out.txt", "archive", ""⟩

theorem generateTimestampedFilePath_spec_witness :
    generateTimestampedFilePath "output" "transcription.txt" ⟨2024, 1, 2, 3, 4, 5⟩
      = "output/transcription_20240102_030405.txt" := by
  have h := generateTimestampedFilePath_spec "output" "transcription.txt" ⟨2024, 1, 2, 3, 4, 5⟩
    (by decide) (by decide) (by decide) (by decide) (by decide)
  rw [h.1]
  decide

theorem generateOrgFilePath_spec_witness :
    generateOrgFilePath "a/b.txt" = "a/b_emacs_org_notes.org" := by
  have h := generateOrgFilePath_spec "a" "b" "txt" (by decide) (by decide) (by decide)
    (by decide) (by decide) (by decide) (by decide)
  rw [show ("a/b.txt" : String) = "a" ++ "/" ++ "b" ++ "." ++ "txt" by decide, h]
  decide

theorem generateTimestampedFilePath_total_witness :
    generateTimestampedFilePathChecked "output" "noext" ⟨2024, 1, 2, 3, 4, 5⟩
        = some (generateTimestampedFilePath "output" "noext" ⟨2024, 1, 2, 3, 4, 5⟩)
      ∧ generateTimestampedFilePath "output" "noext" ⟨2024, 1, 2, 3, 4, 5⟩
        = goJoin "output" ("noext" ++ "_" ++ goTimeFormat ⟨2024, 1, 2, 3, 4, 5⟩) := by
  have h := generateTimestampedFilePath_total "output" "noext" ⟨2024, 1, 2, 3, 4, 5⟩
  exact ⟨h.1, h.2 (by decide)⟩

theorem missing_credential_aborts_early_witness :
    main cfgAudio wNoKey = ([Event.dotenvLoad],
      Outcome.aborted (Abort.fatal "OPENAI_API_KEY not set in environment")) :=
  (missing_credential_aborts_early cfgAudio wNoKey rfl).1

theorem transcription_branch_ignores_output_witness :
    (processTranscription wDemo cfgTransNoPost).1 = [Event.readFile "t.txt"] :=
  (transcription_branch_ignores_output cfgTransNoPost wDemo rfl (by decide)).2.1

theorem main_post_noop_witness :
    Event.completionRequest "x" ∉ (main cfgTransNoPost wDemo).1 :=
  (main_post_noop cfgTransNoPost wDemo (by decide)).1 "x"

theorem transcription_written_verbatim_witness :
    Event.writeFile (generateTimestampedFilePath "output" "transcription.txt" wDemo.now)
        "hello world"
      ∈ (processTranscription wDemo cfgAudio).1 := by
  have h := transcription_written_verbatim cfgAudio wDemo ⟨"hello world"⟩ "meeting notes"
    (by decide) rfl rfl (Or.inl rfl)
  simpa using h.1

theorem createPrompt_spec_witness :
    createPrompt "meeting notes" = promptPrefix ++ "meeting notes" ++ promptSuffix :=
  createPrompt_spec "meeting notes"

end Audio2Org
